import Mathlib

/-!
Shallow embedding of the polaris configuration store, virtual path
resolver and legacy migration engine.

Modelling conventions:
- Filesystem paths (`PathBuf`) are lists of path components (`List String`);
  Rust `Path` equality and `strip_prefix` are component-wise, which this
  representation captures exactly.
- The backing configuration file is modelled at the structural level: the
  disk holds an `Option storage.Config` (the parsed content), and the
  success of the serialize-and-write step of `mutate_fallible` is an
  explicit boolean parameter of the model (`writeOk`), standing for the
  outcome of `toml::ser::to_string_pretty` followed by `tokio::fs::write`.
- `regex::Regex` and `http::Uri` are modelled as wrappers around their
  textual form; compilation/parsing failures are not exercised by any
  claim and are modelled as always succeeding.
- The modules `config/mounts.rs`, `config/user.rs`, `config/storage.rs`
  and `auth.rs` are not part of the provided sources; the definitions
  taken from them are spec-modelled and marked as such in their doc
  comments.
-/

namespace Polaris

/-- Error cases of `crate::app::Error` used by the embedded functions.
`Io` carries the offending path, `CouldNotMapToVirtualPath` the real path
that no mount source prefixes. -/
inductive Error where
  | Io : List String → Error
  | ConfigDeserialization : Error
  | ConfigSerialization : Error
  | IndexAlbumArtPatternInvalid : Error
  | DDNSUpdateURLInvalid : Error
  | UserNotFound : Error
  | PlaylistNotFound : Error
  | CouldNotMapToVirtualPath : List String → Error
  | MountDirsNotUnique : Error
  | InvalidDirectory : String → Error
  | InvalidAuthToken : Error
  | IncorrectAuthorizationScope : Error
  | UserAlreadyExists : Error
  | InvalidMountDirectory : Error
  | PathNotInMountDirectory : Error
deriving DecidableEq, Repr

/-- Model of `regex::Regex`: the compiled pattern, identified by its
source text (`Regex::as_str`). -/
structure Regex where
  pattern : String
deriving DecidableEq, Repr

/-- Model of `http::Uri`, identified by its textual form. -/
structure Uri where
  text : String
deriving DecidableEq, Repr

namespace storage

/-- Storage form of a mount directory: `config::storage::MountDir`
with fields `source` (a path) and `name`. -/
structure MountDir where
  source : List String
  name : String
deriving DecidableEq, Repr

/-- Storage form of a user: `config::storage::User` with fields
`name`, `admin`, `initial_password`, `hashed_password`. -/
structure User where
  name : String
  admin : Option Bool
  initial_password : Option String
  hashed_password : Option String
deriving DecidableEq, Repr

/-- Storage form of the configuration file: `config::storage::Config`,
the top-level document with keys `album_art_pattern`,
`reindex_every_n_seconds`, `ddns_update_url`, `mount_dirs`, `users`. -/
structure Config where
  album_art_pattern : Option String
  reindex_every_n_seconds : Option Nat
  ddns_update_url : Option String
  mount_dirs : List MountDir
  users : List User
deriving DecidableEq, Repr

end storage

/-- In-memory mount directory (`config::mounts::MountDir`). Modelled from
the spec: a mount is `{ name, source }`, the in-memory shape mirroring the
storage shape (the defining module `config/mounts.rs` is not in the
provided sources). -/
structure MountDir where
  name : String
  source : List String
deriving DecidableEq, Repr

/-- In-memory user (`config::user::User`). Modelled from the spec and the
in-repo test `config::test::can_read_config` (the defining module
`config/user.rs` is not in the provided sources): the user keeps `name`,
`admin`, `initial_password` and `hashed_password`; the test shows that
`initial_password` is retained after load and that `hashed_password` is
populated. -/
structure User where
  name : String
  admin : Option Bool
  initial_password : Option String
  hashed_password : Option String
deriving DecidableEq, Repr

/-- In-memory configuration snapshot (`config::Config`): settings,
ordered mounts, ordered users. -/
structure Config where
  reindex_every_n_seconds : Option Nat
  album_art_pattern : Option Regex
  ddns_update_url : Option Uri
  mount_dirs : List MountDir
  users : List User
deriving DecidableEq, Repr

/-- The `Default` derive of `config::Config`: every field empty. -/
def Config.default : Config :=
  { reindex_every_n_seconds := none
    album_art_pattern := none
    ddns_update_url := none
    mount_dirs := []
    users := [] }

/-- Modelled from the spec: the password hash function of the credential
subsystem (`auth.rs` is not in the provided sources). Plaintext is mapped
to an opaque salted-hash blob; modelled symbolically as an injective
tagging function, which is all the claims require. -/
def hash_password (plaintext : String) : String :=
  String.append "$pbkdf2-sha256$" plaintext

/-- Modelled from the spec: `Config::set_mounts` in `config/mounts.rs`
(not in the provided sources). Per §4.1 it replaces the mount table
wholesale and fails with `MountDirsNotUnique` if any two entries share a
name, without mutating state on failure. Source validity
(`InvalidDirectory`) concerns filesystem usability and is not exercised
in the pure model, where every `List String` is a well-formed path. -/
def Config.set_mounts (c : Config) (dirs : List storage.MountDir) : Except Error Config :=
  if (dirs.map storage.MountDir.name).Nodup then
    Except.ok { c with mount_dirs := dirs.map (fun d => { name := d.name, source := d.source }) }
  else
    Except.error Error.MountDirsNotUnique

/-- Modelled from the spec and the test `config::test::can_read_config`:
`Config::set_users` in `config/user.rs` (not in the provided sources).
Each storage user's `initial_password`, if present, is consumed to
populate `hashed_password` via the password hash; the other fields carry
over unchanged (the test asserts that `initial_password` is still present
after load and that `hashed_password` is populated). -/
def Config.set_users (c : Config) (users : List storage.User) : Except Error Config :=
  Except.ok
    { c with
      users := users.map (fun u =>
        { name := u.name
          admin := u.admin
          initial_password := u.initial_password
          hashed_password :=
            match u.initial_password with
            | some p => some (hash_password p)
            | none => u.hashed_password }) }

/-- Embedding of `TryFrom<storage::Config> for Config` (config.rs lines
30-54): start from the default snapshot, `set_mounts`, `set_users`, copy
the reindex interval, compile the album art pattern, parse the DDNS URL.
Pattern compilation and URL parsing are modelled as always succeeding
(no claim exercises their failure branches). -/
def Config.try_from (c : storage.Config) : Except Error Config := do
  let cfg := Config.default
  let cfg ← cfg.set_mounts c.mount_dirs
  let cfg ← cfg.set_users c.users
  let cfg := { cfg with reindex_every_n_seconds := c.reindex_every_n_seconds }
  let cfg := { cfg with album_art_pattern := c.album_art_pattern.map (fun p => { pattern := p }) }
  let cfg := { cfg with ddns_update_url := c.ddns_update_url.map (fun u => { text := u }) }
  Except.ok cfg

/-- Embedding of the user half of `From<Config> for storage::Config`
(config.rs line 63, `u.into()`): the conversion back to storage form is
field-wise (per the test `can_read_config`, which observes
`initial_password` verbatim in the converted value). -/
def User.to_storage (u : User) : storage.User :=
  { name := u.name
    admin := u.admin
    initial_password := u.initial_password
    hashed_password := u.hashed_password }

/-- Embedding of `From<Config> for storage::Config` (config.rs lines
56-66): field-wise conversion, pattern and URL rendered back to text. -/
def Config.to_storage (c : Config) : storage.Config :=
  { reindex_every_n_seconds := c.reindex_every_n_seconds
    album_art_pattern := c.album_art_pattern.map Regex.pattern
    ddns_update_url := c.ddns_update_url.map Uri.text
    mount_dirs := c.mount_dirs.map (fun d => { source := d.source, name := d.name })
    users := c.users.map User.to_storage }

/-- State of a `config::Manager`: the config file path, the in-memory
snapshot behind the `RwLock`, and the parsed content of the backing file
on disk (`none` when the file is absent). -/
structure ManagerState where
  config_file_path : List String
  config : Config
  disk : Option storage.Config
deriving DecidableEq, Repr

namespace Manager

/-- Embedding of `Manager::new` (config.rs lines 76-100): if the backing
file is absent the snapshot is `Config::default()`; otherwise the parsed
file content is converted through `Config::try_from`. The `file` argument
is the parsed content of an existing file (`none` = file absent);
read/deserialization I/O failures are not exercised by any claim. -/
def new (config_file_path : List String) (file : Option storage.Config) :
    Except Error ManagerState :=
  match file with
  | none => Except.ok ⟨config_file_path, Config.default, none⟩
  | some sc =>
    match Config.try_from sc with
    | Except.ok cfg => Except.ok ⟨config_file_path, cfg, some sc⟩
    | Except.error e => Except.error e

/-- Embedding of `Manager::mutate_fallible` (config.rs lines 119-131):
take the write lock, apply `op` to the snapshot, serialize the whole
resulting snapshot and write it to the backing file. `writeOk` models
the outcome of the serialize-and-write step. On `op` failure the
function returns early; on write failure it returns `Error::Io` with the
config file path — in both failure cases after the point where `op` has
already updated the in-memory snapshot. -/
def mutate_fallible (st : ManagerState) (op : Config → Except Error Config)
    (writeOk : Bool) : ManagerState × Except Error Unit :=
  match op st.config with
  | Except.error e => (st, Except.error e)
  | Except.ok cfg =>
    if writeOk then
      (⟨st.config_file_path, cfg, some cfg.to_storage⟩, Except.ok ())
    else
      (⟨st.config_file_path, cfg, st.disk⟩, Except.error (Error.Io st.config_file_path))

/-- Embedding of `Manager::get_index_sleep_duration` (config.rs lines
133-137): the stored value or the 1800 second default, in seconds. -/
def get_index_sleep_duration (st : ManagerState) : Nat :=
  st.config.reindex_every_n_seconds.getD 1800

/-- Embedding of `Manager::set_index_sleep_duration` (config.rs lines
139-144): an infallible mutation through `mutate`/`mutate_fallible`. -/
def set_index_sleep_duration (st : ManagerState) (seconds : Nat) (writeOk : Bool) :
    ManagerState × Except Error Unit :=
  mutate_fallible st
    (fun c => Except.ok { c with reindex_every_n_seconds := some seconds }) writeOk

/-- Embedding of `Manager::get_index_album_art_pattern` (config.rs lines
146-150): the stored pattern or the default `Folder.(jpeg|jpg|png)`. -/
def get_index_album_art_pattern (st : ManagerState) : Regex :=
  st.config.album_art_pattern.getD { pattern := "Folder.(jpeg|jpg|png)" }

/-- Embedding of `Manager::get_users` (config.rs lines 170-172): a copy
of the users list. -/
def get_users (st : ManagerState) : List User :=
  st.config.users

/-- Embedding of `Manager::get_mounts` (config.rs lines 220-223): a copy
of the mount table. -/
def get_mounts (st : ManagerState) : List MountDir :=
  st.config.mount_dirs

/-- Embedding of `Manager::set_mounts` (config.rs lines 233-235):
`mutate_fallible` over `Config::set_mounts`. -/
def set_mounts (st : ManagerState) (dirs : List storage.MountDir) (writeOk : Bool) :
    ManagerState × Except Error Unit :=
  mutate_fallible st (fun c => c.set_mounts dirs) writeOk

end Manager

/-- Modelled from the spec: the capability scopes of the credential
subsystem (`auth.rs` is not in the provided sources) — general API
access and last.fm linking. -/
inductive Scope where
  | generalAccess : Scope
  | lastFMLink : Scope
deriving DecidableEq, Repr

/-- Modelled from the spec: the server-wide auth secret (`auth::Secret`,
a fixed-width secret blob), identified by its value. -/
structure Secret where
  value : Nat
deriving DecidableEq, Repr

/-- Modelled from the spec: a bearer token (`auth::Token`) carrying
`{ username, scope, issuance time }` plus a keyed signature. The
signature is modelled symbolically as the tuple of the secret and the
claims it signs, so that verification is exact recomputation. -/
structure Token where
  username : String
  scope : Scope
  issued_at : Nat
  sig : Secret × String × Scope × Nat
deriving DecidableEq, Repr

/-- Modelled from the spec: token issuance, a deterministic function of
`{secret, username, scope, timestamp}`. -/
def issue_token (secret : Secret) (username : String) (scope : Scope) (t : Nat) : Token :=
  ⟨username, scope, t, (secret, username, scope, t)⟩

/-- Modelled from the spec: token verification recomputes the signature
from the secret and the token's claims and compares. -/
def verify_token (secret : Secret) (tok : Token) : Bool :=
  tok.sig = (secret, tok.username, tok.scope, tok.issued_at)

/-- Modelled from the spec: whether a token's scope satisfies a required
scope — scopes are equality-checked, except that the general-access
scope is accepted wherever a more specific scope is required (§4.3). -/
def scope_accepted (tokenScope required : Scope) : Bool :=
  tokenScope = required || tokenScope = Scope.generalAccess

/-- Authorization record returned by `authenticate`: the resolved
username and the `is_admin` flag read fresh from current state. -/
structure Authorization where
  username : String
  is_admin : Bool
deriving DecidableEq, Repr

/-- Modelled from the spec: `Config::authenticate` in `config/user.rs`
(not in the provided sources). Per §4.1 it verifies the token signature
(`InvalidAuthToken` on failure), checks the scope
(`IncorrectAuthorizationScope`), then resolves the token's username
against the *current* users list on every call, so a deleted user cannot
authenticate even with a structurally valid token. -/
def Config.authenticate (c : Config) (tok : Token) (required : Scope) (secret : Secret) :
    Except Error Authorization :=
  if verify_token secret tok then
    if scope_accepted tok.scope required then
      match c.users.find? (fun u => u.name = tok.username) with
      | some u => Except.ok ⟨u.name, u.admin.getD false⟩
      | none => Except.error Error.UserNotFound
    else
      Except.error Error.IncorrectAuthorizationScope
  else
    Except.error Error.InvalidAuthToken

/-- Modelled from the spec: `Config::delete_user` in `config/user.rs`
(not in the provided sources). Removes the user if present; absence is
not an error (idempotent). -/
def Config.delete_user (c : Config) (username : String) : Config :=
  { c with users := c.users.filter (fun u => u.name ≠ username) }

/-- Embedding of `Manager::authenticate` (config.rs lines 207-214):
read-locks the snapshot and delegates to `Config::authenticate` with the
manager's auth secret. -/
def Manager.authenticate (st : ManagerState) (secret : Secret) (tok : Token)
    (required : Scope) : Except Error Authorization :=
  st.config.authenticate tok required secret

/-- Embedding of `Manager::delete_user` (config.rs lines 216-218): an
infallible mutation through `mutate`/`mutate_fallible`. -/
def Manager.delete_user (st : ManagerState) (username : String) (writeOk : Bool) :
    ManagerState × Except Error Unit :=
  Manager.mutate_fallible st (fun c => Except.ok (c.delete_user username)) writeOk

namespace legacy

/-- Component-wise prefix removal, the embedding of
`Path::strip_prefix`: when `base` is a component prefix of `p`, return
the remaining components. -/
def stripPrefixList (base p : List String) : Option (List String) :=
  match base, p with
  | [], rest => some rest
  | _ :: _, [] => none
  | b :: bs, x :: xs => if b = x then stripPrefixList bs xs else none

/-- Embedding of `legacy::virtualize_path` (legacy.rs lines 90-100):
scan the mount table in order; the first mount whose `source` is a
component prefix of `real_path` wins, and the virtual path is the mount
name joined with the remainder; otherwise fail with
`CouldNotMapToVirtualPath`. -/
def virtualize_path (real_path : List String) (mount_dirs : List storage.MountDir) :
    Except Error (List String) :=
  match mount_dirs with
  | [] => Except.error (Error.CouldNotMapToVirtualPath real_path)
  | m :: rest =>
    match stripPrefixList m.source real_path with
    | some tail => Except.ok (m.name :: tail)
    | none => virtualize_path real_path rest

/-- Insert-or-replace on an association list, the embedding of
`HashMap::insert` (last insert for a key wins). -/
def insertAM {α : Type} (m : List (Nat × α)) (k : Nat) (v : α) : List (Nat × α) :=
  match m with
  | [] => [(k, v)]
  | (k2, v2) :: t => if k2 = k then (k, v) :: t else (k2, v2) :: insertAM t k v

/-- Embedding of the map-building loop of `legacy::read_users` (legacy.rs
lines 81-85): fold the `(id, user)` rows into a map keyed by the numeric
legacy id, in row order (a later row with the same id overwrites an
earlier one, as with `HashMap::insert`). -/
def buildUsers (acc : List (Nat × storage.User)) (rows : List (Nat × storage.User)) :
    List (Nat × storage.User) :=
  match rows with
  | [] => acc
  | (id, u) :: t => buildUsers (insertAM acc id u) t

/-- Embedding of the playlists loop of `legacy::read_legacy_playlists`
(legacy.rs lines 113-120): each `(id, owner, name)` row resolves its
owner id against the users map — aborting the whole run with
`UserNotFound` when absent — and is inserted into the playlists map
keyed by playlist id. -/
def buildPlaylists (users : List (Nat × storage.User))
    (rows : List (Nat × Nat × String))
    (acc : List (Nat × (storage.User × String))) :
    Except Error (List (Nat × (storage.User × String))) :=
  match rows with
  | [] => Except.ok acc
  | (id, owner, name) :: t =>
    match List.lookup owner users with
    | none => Except.error Error.UserNotFound
    | some u => buildPlaylists users t (insertAM acc id (u, name))

/-- Append a song at the end of the playlist named `name`, creating the
entry if absent — the embedding of
`.entry(name).or_default().push(song)`. -/
def pushInner {Song : Type} (m : List (String × List Song)) (name : String) (song : Song) :
    List (String × List Song) :=
  match m with
  | [] => [(name, [song])]
  | (n, songs) :: t =>
    if n = name then (n, songs ++ [song]) :: t else (n, songs) :: pushInner t name song

/-- Append a song to playlist `name` of user `user`, creating entries as
needed — the embedding of
`playlists_by_user.entry(user).or_default().entry(name).or_default().push(song)`. -/
def pushSong {Song : Type} (m : List (String × List (String × List Song)))
    (user name : String) (song : Song) :
    List (String × List (String × List Song)) :=
  match m with
  | [] => [(user, [(name, [song])])]
  | (u, pls) :: t =>
    if u = user then (u, pushInner pls name song) :: t
    else (u, pls) :: pushSong t user name song

/-- Embedding of the songs loop of `legacy::read_legacy_playlists`
(legacy.rs lines 122-148): each `(playlist, path)` row (already ordered
by the `ordering` column) resolves its playlist id — aborting the run
with `PlaylistNotFound` when absent — then virtualizes the real path
against the imported mount table and resolves the virtual path through
the Index Provider (`get_songs` on a single path, modelled by
`getSong`); a row failing either step is skipped (`continue`), otherwise
the song is appended to the owner's playlist. -/
def processSongs {Song : Type} (playlists : List (Nat × (storage.User × String)))
    (mount_dirs : List storage.MountDir)
    (getSong : List String → Except Unit Song)
    (rows : List (Nat × List String))
    (acc : List (String × List (String × List Song))) :
    Except Error (List (String × List (String × List Song))) :=
  match rows with
  | [] => Except.ok acc
  | (pid, real_path) :: t =>
    match List.lookup pid playlists with
    | none => Except.error Error.PlaylistNotFound
    | some pl =>
      match virtualize_path real_path mount_dirs with
      | Except.error _ => processSongs playlists mount_dirs getSong t acc
      | Except.ok virtual_path =>
        match getSong virtual_path with
        | Except.error _ => processSongs playlists mount_dirs getSong t acc
        | Except.ok song =>
          processSongs playlists mount_dirs getSong t
            (pushSong acc pl.1.name pl.2 song)

/-- Embedding of `legacy::read_legacy_playlists` (legacy.rs lines
102-158), with the external inputs made explicit: the rows read from the
legacy database (`userRows`, `mountDirs`, `playlistRows`, `songRows`,
the latter ordered by the `ordering` column) and the Index Provider
(`getSong`). Builds the users and playlists maps, folds the song rows,
then flattens the per-user map into `(playlist name, user name, songs)`
triples. -/
def read_legacy_playlists {Song : Type}
    (userRows : List (Nat × storage.User))
    (mountDirs : List storage.MountDir)
    (playlistRows : List (Nat × Nat × String))
    (songRows : List (Nat × List String))
    (getSong : List String → Except Unit Song) :
    Except Error (List (String × String × List Song)) :=
  match buildPlaylists (buildUsers [] userRows) playlistRows [] with
  | Except.error e => Except.error e
  | Except.ok playlists =>
    match processSongs playlists mountDirs getSong songRows [] with
    | Except.error e => Except.error e
    | Except.ok byUser =>
      Except.ok (byUser.flatMap (fun p =>
        p.2.map (fun q => (q.1, p.1, q.2))))

/-- Condition under which the songs loop skips a row (legacy.rs lines
131-141): the real path cannot be virtualized against the mount table,
or the Index Provider cannot resolve the virtual path. -/
def song_row_skipped {Song : Type} (mountDirs : List storage.MountDir)
    (getSong : List String → Except Unit Song) (real_path : List String) : Bool :=
  match virtualize_path real_path mountDirs with
  | Except.error _ => true
  | Except.ok v =>
    match getSong v with
    | Except.error _ => true
    | Except.ok _ => false

end legacy

/-- Modelled from the spec: `resolve` of the Virtual Path Resolver
(§4.2), pure over a given mount table (the defining module
`config/mounts.rs` is not in the provided sources). The first path
segment is the mount name, looked up by exact name match
(`InvalidMountDirectory` if no mount has that name); the remaining
segments are joined onto the mount's source, and the join rejects
parent-directory traversal segments that would escape the mount root —
§4.2's required security invariant — failing with
`PathNotInMountDirectory`. Stated over the storage mount shape shared
with `legacy::virtualize_path`. -/
def resolve_virtual_path (virtual_path : List String)
    (mount_dirs : List storage.MountDir) : Except Error (List String) :=
  match virtual_path with
  | [] => Except.error Error.InvalidMountDirectory
  | name :: rest =>
    match mount_dirs.find? (fun m => m.name = name) with
    | none => Except.error Error.InvalidMountDirectory
    | some m =>
      if ".." ∈ rest then Except.error Error.PathNotInMountDirectory
      else Except.ok (m.source ++ rest)

/-! Theorems. -/

/-- Helper: `stripPrefixList` succeeds exactly on component prefixes,
returning the remainder. -/
theorem stripPrefixList_eq_some_iff (b p t : List String) :
    legacy.stripPrefixList b p = some t ↔ p = b ++ t := by
  induction b generalizing p with
  | nil => simp [legacy.stripPrefixList]
  | cons x bs ih =>
    cases p with
    | nil => simp [legacy.stripPrefixList]
    | cons y ys =>
      by_cases hxy : x = y
      · subst hxy
        simp [legacy.stripPrefixList, ih]
      · simp only [legacy.stripPrefixList, if_neg hxy, List.cons_append, List.cons.injEq]
        constructor
        · intro h
          cases h
        · rintro ⟨h1, _⟩
          exact absurd h1.symm hxy

/-- Helper: `stripPrefixList` fails exactly when the base is not a
component prefix. -/
theorem stripPrefixList_eq_none_iff (b p : List String) :
    legacy.stripPrefixList b p = none ↔ ¬ List.IsPrefix b p := by
  constructor
  · rintro h ⟨t, ht⟩
    have hs : legacy.stripPrefixList b p = some t :=
      (stripPrefixList_eq_some_iff b p t).mpr ht.symm
    rw [h] at hs
    cases hs
  · intro h
    cases hs : legacy.stripPrefixList b p with
    | none => rfl
    | some t =>
      exact absurd ⟨t, ((stripPrefixList_eq_some_iff b p t).mp hs).symm⟩ h

/-- C4: `virtualize_path` scans the mount table in order: if no mount's
source is a component prefix of the real path it fails with
`CouldNotMapToVirtualPath`; otherwise the first mount whose source
prefixes the path wins, and the result is the mount name joined with the
remainder of the path. -/
theorem virtualize_path_first_match (p : List String) :
    (∀ mounts : List storage.MountDir, (∀ m ∈ mounts, ¬ List.IsPrefix m.source p) →
      legacy.virtualize_path p mounts = Except.error (Error.CouldNotMapToVirtualPath p)) ∧
    (∀ (pre : List storage.MountDir) (m : storage.MountDir) (post : List storage.MountDir),
      (∀ x ∈ pre, ¬ List.IsPrefix x.source p) → List.IsPrefix m.source p →
      legacy.virtualize_path p (pre ++ m :: post) =
        Except.ok (m.name :: p.drop m.source.length)) := by
  constructor
  · intro mounts h
    induction mounts with
    | nil => rfl
    | cons a t ih =>
      have ha : legacy.stripPrefixList a.source p = none :=
        (stripPrefixList_eq_none_iff a.source p).mpr (h a (List.mem_cons_self a t))
      simp only [legacy.virtualize_path, ha]
      exact ih (fun m hm => h m (List.mem_cons_of_mem a hm))
  · intro pre m post hpre hm
    induction pre with
    | nil =>
      obtain ⟨t, ht⟩ := hm
      have hs : legacy.stripPrefixList m.source p = some t :=
        (stripPrefixList_eq_some_iff m.source p t).mpr ht.symm
      have hd : t = p.drop m.source.length := by
        rw [← ht, List.drop_left]
      simp only [List.nil_append, legacy.virtualize_path, hs, hd]
    | cons a t ih =>
      have ha : legacy.stripPrefixList a.source p = none :=
        (stripPrefixList_eq_none_iff a.source p).mpr (hpre a (List.mem_cons_self a t))
      simp only [List.cons_append, legacy.virtualize_path, ha]
      exact ih (fun x hx => hpre x (List.mem_cons_of_mem a hx))

/-- C4 (witness): the theorem applied to the path `music/x/a.mp3`, first
with an empty table (no prefixing source: the mapping fails), then with
the table `[{music, m0}, {music/x, m1}]` whose first entry's source
prefixes the path (first match wins). -/
theorem virtualize_path_first_match_witness :
    legacy.virtualize_path ["music", "x", "a.mp3"] [] =
      Except.error (Error.CouldNotMapToVirtualPath ["music", "x", "a.mp3"]) ∧
    legacy.virtualize_path ["music", "x", "a.mp3"]
        [⟨["music"], "m0"⟩, ⟨["music", "x"], "m1"⟩] =
      Except.ok ["m0", "x", "a.mp3"] :=
  ⟨(virtualize_path_first_match ["music", "x", "a.mp3"]).1 [] (by simp),
    (virtualize_path_first_match ["music", "x", "a.mp3"]).2 [] ⟨["music"], "m0"⟩
      [⟨["music", "x"], "m1"⟩] (by simp) ⟨["x", "a.mp3"], rfl⟩⟩

/-- Helper: under pairwise non-overlapping sources, virtualizing a real
path of the form `m.source ++ rest` for a mount `m` of the table yields
exactly `m.name :: rest`. -/
theorem virtualize_path_of_mem
    (mounts : List storage.MountDir) (m : storage.MountDir) (rest : List String)
    (hmem : m ∈ mounts)
    (hover : List.Pairwise
      (fun a b => ¬ List.IsPrefix a.source b.source ∧ ¬ List.IsPrefix b.source a.source)
      mounts) :
    legacy.virtualize_path (m.source ++ rest) mounts = Except.ok (m.name :: rest) := by
  induction mounts with
  | nil => cases hmem
  | cons a t ih =>
    obtain ⟨hhead, htail⟩ := List.pairwise_cons.mp hover
    rcases List.mem_cons.mp hmem with h | h
    · subst h
      have hs : legacy.stripPrefixList m.source (m.source ++ rest) = some rest :=
        (stripPrefixList_eq_some_iff m.source (m.source ++ rest) rest).mpr rfl
      simp only [legacy.virtualize_path, hs]
    · have hna : ¬ List.IsPrefix a.source (m.source ++ rest) := by
        intro hpre
        rcases List.prefix_or_prefix_of_prefix hpre (List.prefix_append m.source rest) with
          hc | hc
        · exact (hhead m h).1 hc
        · exact (hhead m h).2 hc
      have ha : legacy.stripPrefixList a.source (m.source ++ rest) = none :=
        (stripPrefixList_eq_none_iff a.source (m.source ++ rest)).mpr hna
      simp only [legacy.virtualize_path, ha]
      exact ih h htail

/-- C3 (counterexample): with the single-mount table `[{music/x, root}]`
— no overlapping sources — and the virtual path `root/..`, whose first
segment names a mount of the table, the round trip does not return the
original path: the spec-required rejection of parent-directory traversal
segments makes `resolve` fail with `PathNotInMountDirectory`, refuting
the claim as universally stated. -/
theorem resolve_virtualize_roundtrip_counterexample :
    ¬ ((resolve_virtual_path ["root", ".."] [⟨["music", "x"], "root"⟩]).bind
        (fun real => legacy.virtualize_path real [⟨["music", "x"], "root"⟩]) =
      Except.ok ["root", ".."]) := by
  intro h
  exact Except.noConfusion h

/-- C3 (amended): round-trip law of the Virtual Path Resolver — for a
mount table with pairwise non-overlapping sources and a virtual path
whose first segment names a mount of the table and whose remaining
segments contain no parent-directory traversal segment, virtualizing
the resolved real path gives back the original virtual path. -/
theorem resolve_virtualize_roundtrip
    (mounts : List storage.MountDir)
    (hover : List.Pairwise
      (fun a b => ¬ List.IsPrefix a.source b.source ∧ ¬ List.IsPrefix b.source a.source)
      mounts)
    (name : String) (rest : List String)
    (hex : ∃ m ∈ mounts, m.name = name)
    (hsafe : ".." ∉ rest) :
    (resolve_virtual_path (name :: rest) mounts).bind
      (fun real => legacy.virtualize_path real mounts) = Except.ok (name :: rest) := by
  have hsome : (mounts.find? (fun m => m.name = name)).isSome := by
    rw [List.find?_isSome]
    obtain ⟨m, hm, hn⟩ := hex
    exact ⟨m, hm, by simp [hn]⟩
  obtain ⟨m, hfind⟩ := Option.isSome_iff_exists.mp hsome
  have hmem : m ∈ mounts := List.mem_of_find?_eq_some hfind
  have hname : m.name = name := by
    have := List.find?_some hfind
    simpa using this
  simp only [resolve_virtual_path, hfind, if_neg hsafe, Except.bind]
  rw [virtualize_path_of_mem mounts m rest hmem hover, hname]

/-- C3 (witness): the round trip on the one-mount table
`[{music/x, root}]` and the traversal-free virtual path `root/a.mp3`. -/
theorem resolve_virtualize_roundtrip_witness :
    (resolve_virtual_path ["root", "a.mp3"] [⟨["music", "x"], "root"⟩]).bind
      (fun real => legacy.virtualize_path real [⟨["music", "x"], "root"⟩]) =
      Except.ok ["root", "a.mp3"] :=
  resolve_virtualize_roundtrip [⟨["music", "x"], "root"⟩] (by simp) "root" ["a.mp3"]
    ⟨⟨["music", "x"], "root"⟩, by simp, rfl⟩ (by decide)

/-- Helper: a song row that the skip condition matches and whose
playlist id resolves leaves the songs loop unchanged, wherever it sits
in the row list. -/
theorem processSongs_skip {Song : Type}
    (playlists : List (Nat × (storage.User × String)))
    (mountDirs : List storage.MountDir)
    (getSong : List String → Except Unit Song)
    (pid : Nat) (rpath : List String) (pl : storage.User × String)
    (hpid : List.lookup pid playlists = some pl)
    (hskip : legacy.song_row_skipped mountDirs getSong rpath = true)
    (pre post : List (Nat × List String))
    (acc : List (String × List (String × List Song))) :
    legacy.processSongs playlists mountDirs getSong (pre ++ (pid, rpath) :: post) acc =
      legacy.processSongs playlists mountDirs getSong (pre ++ post) acc := by
  induction pre generalizing acc with
  | nil =>
    simp only [List.nil_append]
    unfold legacy.song_row_skipped at hskip
    cases hv : legacy.virtualize_path rpath mountDirs with
    | error e => simp only [legacy.processSongs, hpid, hv]
    | ok v =>
      cases hg : getSong v with
      | error e => simp only [legacy.processSongs, hpid, hv, hg]
      | ok s =>
        simp only [hv, hg] at hskip
        exact Bool.noConfusion hskip
  | cons a t ih =>
    obtain ⟨pid2, rp2⟩ := a
    simp only [List.cons_append, legacy.processSongs]
    split
    · rfl
    · split
      · exact ih acc
      · split
        · exact ih acc
        · exact ih _

/-- C5: during playlist reconstruction, a legacy song row whose real
path cannot be virtualized against the mount table or whose virtual
path the Index Provider cannot resolve is skipped: provided its playlist
id resolves, removing the row from the input leaves the entire result of
`read_legacy_playlists` unchanged — the remaining songs are unaffected
and the row never aborts the run. -/
theorem read_legacy_playlists_skips_bad_song {Song : Type}
    (userRows : List (Nat × storage.User))
    (mountDirs : List storage.MountDir)
    (playlistRows : List (Nat × Nat × String))
    (getSong : List String → Except Unit Song)
    (pre post : List (Nat × List String))
    (pid : Nat) (rpath : List String)
    (ps : List (Nat × (storage.User × String))) (pl : storage.User × String)
    (hps : legacy.buildPlaylists (legacy.buildUsers [] userRows) playlistRows [] =
      Except.ok ps)
    (hpid : List.lookup pid ps = some pl)
    (hskip : legacy.song_row_skipped mountDirs getSong rpath = true) :
    legacy.read_legacy_playlists userRows mountDirs playlistRows
        (pre ++ (pid, rpath) :: post) getSong =
      legacy.read_legacy_playlists userRows mountDirs playlistRows (pre ++ post) getSong := by
  unfold legacy.read_legacy_playlists
  rw [hps]
  dsimp only
  rw [processSongs_skip ps mountDirs getSong pid rpath pl hpid hskip pre post []]

/-- C5 (witness): with one user, one playlist and a one-mount table, a
song row whose path lies outside the mount is dropped: the run over the
single bad row equals the run over no rows. -/
theorem read_legacy_playlists_skips_bad_song_witness :
    @legacy.read_legacy_playlists Unit
        [(1, ⟨"alice", some true, none, some "h"⟩)] [⟨["music"], "root"⟩]
        [(1, 1, "pl")] [(1, ["elsewhere", "song.mp3"])] (fun _ => Except.error ()) =
      @legacy.read_legacy_playlists Unit
        [(1, ⟨"alice", some true, none, some "h"⟩)] [⟨["music"], "root"⟩]
        [(1, 1, "pl")] [] (fun _ => Except.error ()) :=
  read_legacy_playlists_skips_bad_song
    [(1, ⟨"alice", some true, none, some "h"⟩)] [⟨["music"], "root"⟩]
    [(1, 1, "pl")] (fun _ => Except.error ()) [] []
    1 ["elsewhere", "song.mp3"]
    [(1, (⟨"alice", some true, none, some "h"⟩, "pl"))]
    (⟨"alice", some true, none, some "h"⟩, "pl") rfl rfl rfl

/-- Helper: the playlists loop aborts with `UserNotFound` as soon as any
row's owner id is absent from the users map. -/
theorem buildPlaylists_owner_missing
    (users : List (Nat × storage.User))
    (rows : List (Nat × Nat × String))
    (h : ∃ r ∈ rows, List.lookup r.2.1 users = none) :
    ∀ acc, legacy.buildPlaylists users rows acc = Except.error Error.UserNotFound := by
  induction rows with
  | nil =>
    obtain ⟨r, hr, _⟩ := h
    cases hr
  | cons a t ih =>
    intro acc
    obtain ⟨id, owner, name⟩ := a
    cases ho : List.lookup owner users with
    | none => simp only [legacy.buildPlaylists, ho]
    | some u =>
      simp only [legacy.buildPlaylists, ho]
      apply ih
      obtain ⟨r, hr, hrn⟩ := h
      rcases List.mem_cons.mp hr with rfl | hrt
      · rw [hrn] at ho
        cases ho
      · exact ⟨r, hrt, hrn⟩

/-- Helper: the songs loop aborts with `PlaylistNotFound` as soon as any
row references a playlist id absent from the playlists map. -/
theorem processSongs_playlist_missing {Song : Type}
    (playlists : List (Nat × (storage.User × String)))
    (mountDirs : List storage.MountDir)
    (getSong : List String → Except Unit Song)
    (rows : List (Nat × List String))
    (h : ∃ r ∈ rows, List.lookup r.1 playlists = none) :
    ∀ acc, legacy.processSongs playlists mountDirs getSong rows acc =
      Except.error Error.PlaylistNotFound := by
  induction rows with
  | nil =>
    obtain ⟨r, hr, _⟩ := h
    cases hr
  | cons a t ih =>
    intro acc
    obtain ⟨pid, rpath⟩ := a
    cases hp : List.lookup pid playlists with
    | none => simp only [legacy.processSongs, hp]
    | some pl =>
      have ht : ∃ r ∈ t, List.lookup r.1 playlists = none := by
        obtain ⟨r, hr, hrn⟩ := h
        rcases List.mem_cons.mp hr with rfl | hrt
        · rw [hrn] at hp
          cases hp
        · exact ⟨r, hrt, hrn⟩
      simp only [legacy.processSongs, hp]
      split
      · exact ih ht acc
      · split
        · exact ih ht acc
        · exact ih ht _

/-- C10: `read_legacy_playlists` aborts the whole run with an error
rather than skipping the row — with `UserNotFound` when some playlists
row's owner id is absent from the legacy users table, and with
`PlaylistNotFound` when (the playlists map having been built) some
playlist_songs row references a playlist id absent from it. -/
theorem read_legacy_playlists_aborts {Song : Type}
    (userRows : List (Nat × storage.User))
    (mountDirs : List storage.MountDir)
    (playlistRows : List (Nat × Nat × String))
    (songRows : List (Nat × List String))
    (getSong : List String → Except Unit Song) :
    ((∃ r ∈ playlistRows, List.lookup r.2.1 (legacy.buildUsers [] userRows) = none) →
      legacy.read_legacy_playlists userRows mountDirs playlistRows songRows getSong =
        Except.error Error.UserNotFound) ∧
    (∀ ps, legacy.buildPlaylists (legacy.buildUsers [] userRows) playlistRows [] =
        Except.ok ps →
      (∃ r ∈ songRows, List.lookup r.1 ps = none) →
      legacy.read_legacy_playlists userRows mountDirs playlistRows songRows getSong =
        Except.error Error.PlaylistNotFound) := by
  constructor
  · intro h
    unfold legacy.read_legacy_playlists
    rw [buildPlaylists_owner_missing (legacy.buildUsers [] userRows) playlistRows h []]
  · intro ps hps h
    unfold legacy.read_legacy_playlists
    rw [hps]
    dsimp only
    rw [processSongs_playlist_missing ps mountDirs getSong songRows h []]

/-- C10 (witness): a playlists row owned by the absent user id 99 aborts
the run with `UserNotFound`; a playlist_songs row referencing the absent
playlist id 5 aborts the run with `PlaylistNotFound`. -/
theorem read_legacy_playlists_aborts_witness :
    @legacy.read_legacy_playlists Unit
        [(1, ⟨"alice", some true, none, some "h"⟩)] [] [(1, 99, "pl")] []
        (fun _ => Except.ok ()) = Except.error Error.UserNotFound ∧
    @legacy.read_legacy_playlists Unit
        [(1, ⟨"alice", some true, none, some "h"⟩)] [] [] [(5, ["x"])]
        (fun _ => Except.ok ()) = Except.error Error.PlaylistNotFound :=
  ⟨(read_legacy_playlists_aborts
      [(1, ⟨"alice", some true, none, some "h"⟩)] [] [(1, 99, "pl")] []
      (fun _ => Except.ok ())).1 ⟨(1, 99, "pl"), by simp, rfl⟩,
    (read_legacy_playlists_aborts
      [(1, ⟨"alice", some true, none, some "h"⟩)] [] [] [(5, ["x"])]
      (fun _ => Except.ok ())).2 [] rfl ⟨(5, ["x"]), by simp, rfl⟩⟩

/-- C2: creating a `Manager` when the configuration file is absent
succeeds with the default snapshot, and on that snapshot
`get_index_sleep_duration` is 1800 seconds,
`get_index_album_art_pattern` is `Folder.(jpeg|jpg|png)`, and
`get_mounts` and `get_users` are empty. -/
theorem manager_new_absent_file_defaults (path : List String) :
    Manager.new path none = Except.ok ⟨path, Config.default, none⟩ ∧
    Manager.get_index_sleep_duration ⟨path, Config.default, none⟩ = 1800 ∧
    Manager.get_index_album_art_pattern ⟨path, Config.default, none⟩ =
      { pattern := "Folder.(jpeg|jpg|png)" } ∧
    Manager.get_mounts ⟨path, Config.default, none⟩ = [] ∧
    Manager.get_users ⟨path, Config.default, none⟩ = [] :=
  ⟨rfl, rfl, rfl, rfl, rfl⟩

/-- C1 (counterexample): a mutating operation (`set_index_sleep_duration`
to 42) whose backing-file write fails reports the I/O error but leaves
the in-memory snapshot mutated — it is not rolled back to its
pre-mutation value, refuting the rollback half of the claim. -/
theorem mutate_fallible_no_rollback_counterexample :
    (Manager.set_index_sleep_duration ⟨["polaris.toml"], Config.default, none⟩ 42 false).2 =
      Except.error (Error.Io ["polaris.toml"]) ∧
    ¬ (Manager.set_index_sleep_duration ⟨["polaris.toml"], Config.default, none⟩ 42 false).1.config =
      Config.default := by
  exact ⟨rfl, by decide⟩

/-- C1 (amended): in `mutate_fallible`, when the mutation op succeeds but
the serialize-and-write step fails, the operation returns the I/O error
while the in-memory snapshot keeps the mutated value (no rollback) and
the on-disk file is unchanged, so memory and disk diverge; the write
goes directly to the configuration file path, with no temporary file and
rename. -/
theorem mutate_fallible_write_failure_keeps_mutation
    (st : ManagerState) (op : Config → Except Error Config) (cfg : Config)
    (h : op st.config = Except.ok cfg) :
    Manager.mutate_fallible st op false =
      (⟨st.config_file_path, cfg, st.disk⟩, Except.error (Error.Io st.config_file_path)) := by
  unfold Manager.mutate_fallible
  rw [h]
  rfl

/-- C1 (witness): the amended theorem applied to a concrete failing
write over the default snapshot. -/
theorem mutate_fallible_write_failure_keeps_mutation_witness :
    Manager.mutate_fallible ⟨["polaris.toml"], Config.default, none⟩
      (fun c => Except.ok { c with reindex_every_n_seconds := some 42 }) false =
      (⟨["polaris.toml"], { Config.default with reindex_every_n_seconds := some 42 }, none⟩,
        Except.error (Error.Io ["polaris.toml"])) :=
  mutate_fallible_write_failure_keeps_mutation
    ⟨["polaris.toml"], Config.default, none⟩ _ _ rfl

/-- C6: `set_mounts` on a list containing two entries with the same name
fails with `MountDirsNotUnique` and leaves the whole manager state
(snapshot and disk) unchanged, whatever the prior state. -/
theorem set_mounts_duplicate_name_fails
    (st : ManagerState) (writeOk : Bool)
    (pre mid post : List storage.MountDir) (d1 d2 : storage.MountDir)
    (hname : d1.name = d2.name) :
    Manager.set_mounts st (pre ++ d1 :: mid ++ d2 :: post) writeOk =
      (st, Except.error Error.MountDirsNotUnique) := by
  have hnd : ¬ ((pre ++ d1 :: mid ++ d2 :: post).map storage.MountDir.name).Nodup := by
    intro h
    rw [List.map_append, List.map_cons, List.map_append, List.map_cons] at h
    have s1 : List.Sublist [d2.name] (d2.name :: List.map storage.MountDir.name post) :=
      List.Sublist.cons₂ _ (List.nil_sublist _)
    have s2 : List.Sublist [d1.name]
        (List.map storage.MountDir.name pre ++ d1.name :: List.map storage.MountDir.name mid) :=
      (List.Sublist.cons₂ d1.name (List.nil_sublist (List.map storage.MountDir.name mid))).trans
        (List.sublist_append_right (List.map storage.MountDir.name pre) _)
    have s3 := List.Sublist.append s2 s1
    have hpair : ([d1.name, d2.name]).Nodup := List.Nodup.sublist s3 h
    exact (List.nodup_cons.mp hpair).1 (by rw [hname]; exact List.mem_cons_self _ _)
  have hset : Config.set_mounts st.config (pre ++ d1 :: mid ++ d2 :: post) =
      Except.error Error.MountDirsNotUnique := by
    unfold Config.set_mounts
    rw [if_neg hnd]
  unfold Manager.set_mounts Manager.mutate_fallible
  simp only [hset]

/-- C6 (witness): the theorem applied to the default state and the
two-element table `[{a, root}, {b, root}]` sharing the name `root`. -/
theorem set_mounts_duplicate_name_fails_witness :
    Manager.set_mounts ⟨["polaris.toml"], Config.default, none⟩
      [⟨["a"], "root"⟩, ⟨["b"], "root"⟩] true =
      (⟨["polaris.toml"], Config.default, none⟩, Except.error Error.MountDirsNotUnique) :=
  set_mounts_duplicate_name_fails ⟨["polaris.toml"], Config.default, none⟩ true
    [] [] [] ⟨["a"], "root"⟩ ⟨["b"], "root"⟩ rfl

/-- Helper: after filtering out every user named `n`, a search for a
user named `n` finds nothing. -/
theorem find_filtered_name_none (us : List User) (n : String) :
    (us.filter (fun u => u.name ≠ n)).find? (fun u => u.name = n) = none := by
  induction us with
  | nil => rfl
  | cons u t ih =>
    by_cases h : u.name = n
    · simp [List.filter_cons, h, ih]
    · simp [List.filter_cons, List.find?, h, ih]

/-- C7: `authenticate` resolves the token's username against the current
users list on every call, so after `delete_user name`, authentication
with any token carrying that username fails, for every prior state,
scope and write outcome. -/
theorem authenticate_after_delete_user_fails
    (st : ManagerState) (secret : Secret) (tok : Token) (required : Scope)
    (name : String) (writeOk : Bool) (hname : tok.username = name) :
    ∃ e, Manager.authenticate (Manager.delete_user st name writeOk).1 secret tok required =
      Except.error e := by
  have hcfg : (Manager.delete_user st name writeOk).1.config = st.config.delete_user name := by
    unfold Manager.delete_user Manager.mutate_fallible
    cases writeOk <;> rfl
  unfold Manager.authenticate
  rw [hcfg]
  unfold Config.authenticate Config.delete_user
  subst hname
  rw [find_filtered_name_none st.config.users tok.username]
  by_cases hv : verify_token secret tok
  · by_cases hs : scope_accepted tok.scope required
    · exact ⟨Error.UserNotFound, by simp [hv, hs]⟩
    · exact ⟨Error.IncorrectAuthorizationScope, by simp [hv, hs]⟩
  · exact ⟨Error.InvalidAuthToken, by simp [hv]⟩

/-- C7 (witness): a previously valid general-access token for user
`alice` no longer authenticates after `delete_user alice`. -/
theorem authenticate_after_delete_user_fails_witness :
    ∃ e, Manager.authenticate
      (Manager.delete_user
        ⟨["polaris.toml"],
          { Config.default with users := [⟨"alice", some true, none, some "h"⟩] }, none⟩
        "alice" true).1
      ⟨7⟩ (issue_token ⟨7⟩ "alice" Scope.generalAccess 0) Scope.generalAccess =
      Except.error e :=
  authenticate_after_delete_user_fails
    ⟨["polaris.toml"],
      { Config.default with users := [⟨"alice", some true, none, some "h"⟩] }, none⟩
    ⟨7⟩ (issue_token ⟨7⟩ "alice" Scope.generalAccess 0) Scope.generalAccess
    "alice" true rfl

/-- C9 (counterexample): loading a storage config whose only user has
`initial_password = some "very_secret_password"` and converting the
resulting snapshot back to storage form reproduces the
`initial_password` value verbatim, refuting the claim's second half
(this is exactly what the in-repo test `can_read_config` asserts). -/
theorem initial_password_verbatim_counterexample :
    (Config.try_from
        ⟨none, none, none, [], [⟨"test_user", some true, some "very_secret_password", none⟩]⟩).map
      (fun c => c.to_storage.users.map storage.User.initial_password) =
      Except.ok [some "very_secret_password"] := by
  rfl

/-- C9 (amended): on load, every user entry's `initial_password`, if
present, is consumed to populate `hashed_password`; but the
`initial_password` itself is retained in the snapshot, so converting
back to storage form reproduces every user verbatim except for the
populated `hashed_password` — in particular `initial_password` round
trips back out. -/
theorem initial_password_consumed_but_retained
    (sc : storage.Config) (c : Config) (h : Config.try_from sc = Except.ok c) :
    c.to_storage.users = sc.users.map (fun u =>
      { u with
        hashed_password :=
          match u.initial_password with
          | some p => some (hash_password p)
          | none => u.hashed_password }) := by
  by_cases hnd : (sc.mount_dirs.map storage.MountDir.name).Nodup
  · simp only [Config.try_from, Config.set_mounts, if_pos hnd, Config.set_users, bind,
      Except.bind, Except.ok.injEq] at h
    subst h
    simp only [Config.to_storage, User.to_storage, List.map_map]
    rfl
  · simp only [Config.try_from, Config.set_mounts, if_neg hnd, bind, Except.bind] at h
    cases h

/-- C9 (witness): the amended theorem applied to the concrete storage
config of the counterexample; the hash of the initial password is
populated and the initial password is retained. -/
theorem initial_password_consumed_but_retained_witness :
    (⟨none, none, none, [],
        [⟨"test_user", some true, some "very_secret_password",
          some "$pbkdf2-sha256$very_secret_password"⟩]⟩ : Config).to_storage.users =
      ([⟨"test_user", some true, some "very_secret_password", none⟩] :
          List storage.User).map (fun u =>
        { u with
          hashed_password :=
            match u.initial_password with
            | some p => some (hash_password p)
            | none => u.hashed_password }) :=
  initial_password_consumed_but_retained
    ⟨none, none, none, [], [⟨"test_user", some true, some "very_secret_password", none⟩]⟩
    ⟨none, none, none, [],
      [⟨"test_user", some true, some "very_secret_password",
        some "$pbkdf2-sha256$very_secret_password"⟩]⟩
    (by rfl)

end Polaris
